import Mathlib

/-!
Verification development for the APEX blockchain core (Go).

Shallow embedding of the data model and the operations referenced by the
checked properties: account/validator/delegation state, the transaction
executor, the DPoS validator selection and block-producer scheduling, the
slasher, the staking manager's unbonding queue, and the mempool with its
gas-price heap.

Modelling conventions:
- `types.Address` and `types.Hash` are modelled as `Nat` (only identity and
  decidable equality of these values matter to the checked properties).
- `math/big.Int` values (balances, stakes, voting power, gas prices) are
  modelled as `Int`; `big.Int.Div` is Euclidean division, `Int.ediv`.
- `uint64` fields are modelled as `Nat`; where the Go code can wrap
  (`Nonce++`, `currentBlock + unbondingPeriod`, `int64(GasLimit)`), the
  wrap is made explicit via `u64` / `toInt64`.
- Key-value state (BadgerDB behind `StateDB`, Go maps inside `DPoS`,
  `StakingManager`, `Mempool`) is modelled as association lists with
  `alistLookup`/`alistUpdate`/`alistErase`; Go map iteration order, which is
  unspecified, is represented by the order of the association list (or, for
  `SelectValidators`, by an explicit input list of map values).
- `StateDB.GetAccount`/`GetValidator`/`GetDelegation` JSON-decode a fresh
  value on every call, so reads yield copies, never aliases into the store;
  the embedding reflects this by being purely functional.
- `time.Time` fields (`Timestamp`, `JailTime`, `CreatedAt`) and signature
  bytes carry no behaviour used by the checked properties; signatures are
  kept only as a byte-list length for `Transaction.Validate`.
-/

namespace Apex

/-- Wrap of a `uint64` computation (`pkg` arithmetic on nonces and heights). -/
def u64 (n : Nat) : Nat := n % 2 ^ 64

/-- The Go conversion `int64(n)` applied to a `uint64` value `n`
(two's-complement reinterpretation), as used in `Transaction.GetCost`. -/
def toInt64 (n : Nat) : Int :=
  if n % 2 ^ 64 < 2 ^ 63 then ((n % 2 ^ 64 : Nat) : Int)
  else ((n % 2 ^ 64 : Nat) : Int) - 2 ^ 64

/-- `types.MaxValidators` (maximum number of active validators). -/
def maxValidators : Nat := 21

/-- `types.MinStakeAmount` converted by `types.ToWei`:
`ToWei(float64(100_000))` evaluates exactly to `100000 * 10^18 = 10^23`
(the `big.Float` computation is exact: `10^23` needs 54 mantissa bits and the
operands carry precision 64). -/
def minStakeWei : Int := 10 ^ 23

/-- `types.UnbondingPeriod` in blocks. -/
def unbondingPeriodConst : Nat := 201600

/-- `types.Account` (pkg/types/account.go). -/
structure Account where
  address : Nat
  balance : Int
  nonce : Nat
  staked : Int
  locked : Int
  deriving DecidableEq

/-- `types.NewAccount`. -/
def newAccount (addr : Nat) : Account :=
  { address := addr, balance := 0, nonce := 0, staked := 0, locked := 0 }

/-- `Account.AddBalance`. -/
def Account.addBalance (a : Account) (amount : Int) : Account :=
  { a with balance := a.balance + amount }

/-- `Account.SubBalance`: subtracts only when the balance suffices
(the Go method returns `false` and leaves the account unchanged otherwise;
every caller in the executor checks the balance first and ignores the
returned Bool, so the embedding keeps just the state effect). -/
def Account.subBalance (a : Account) (amount : Int) : Account :=
  if a.balance < amount then a else { a with balance := a.balance - amount }

/-- `Account.AddStake`. -/
def Account.addStake (a : Account) (amount : Int) : Account :=
  { a with staked := a.staked + amount }

/-- `Account.SubStake`: subtracts only when the staked amount suffices
(Go returns `false` and does not mutate otherwise; callers ignore the Bool). -/
def Account.subStake (a : Account) (amount : Int) : Account :=
  if a.staked < amount then a else { a with staked := a.staked - amount }

/-- `types.ValidatorStatus`. -/
inductive ValidatorStatus where
  | active
  | inactive
  | jailed
  | unbonding
  deriving DecidableEq

/-- `types.Validator` (pkg/types/validator.go); the `time.Time` fields
`JailTime` and `CreatedAt` are omitted (no checked property reads them). -/
structure Validator where
  address : Nat
  publicKey : Nat
  votingPower : Int
  selfStake : Int
  commission : Nat
  status : ValidatorStatus
  jailed : Bool
  missedBlocks : Nat
  producedBlocks : Nat
  lastActiveEpoch : Nat
  totalRewards : Int
  deriving DecidableEq

/-- `types.NewValidator`. -/
def newValidator (addr pubKey : Nat) (selfStake : Int) (commission : Nat) : Validator :=
  { address := addr, publicKey := pubKey, votingPower := selfStake,
    selfStake := selfStake, commission := commission,
    status := ValidatorStatus.active, jailed := false,
    missedBlocks := 0, producedBlocks := 0, lastActiveEpoch := 0,
    totalRewards := 0 }

/-- `Validator.IsActive`. -/
def Validator.isActive (v : Validator) : Bool :=
  v.status = ValidatorStatus.active ∧ v.jailed = false

/-- `Validator.CanProduceBlocks`. -/
def Validator.canProduceBlocks (v : Validator) : Bool :=
  v.isActive ∧ minStakeWei ≤ v.votingPower

/-- `Validator.AddVotingPower`. -/
def Validator.addVotingPower (v : Validator) (amount : Int) : Validator :=
  { v with votingPower := v.votingPower + amount }

/-- `Validator.SubVotingPower`: subtracts and clamps a negative result to 0. -/
def Validator.subVotingPower (v : Validator) (amount : Int) : Validator :=
  let n := v.votingPower - amount
  { v with votingPower := if n < 0 then 0 else n }

/-- `types.Delegation` (`CreatedAt` omitted). -/
structure Delegation where
  delegator : Nat
  validator : Nat
  amount : Int
  rewards : Int
  deriving DecidableEq

/-- `types.NewDelegation`. -/
def newDelegation (delegator validator : Nat) (amount : Int) : Delegation :=
  { delegator := delegator, validator := validator, amount := amount, rewards := 0 }

/-- `types.UnbondingDelegation` (`CreatedAt` omitted). -/
structure UnbondingDelegation where
  delegator : Nat
  validator : Nat
  amount : Int
  completionBlock : Nat
  deriving DecidableEq

section AList

variable {κ α : Type} [DecidableEq κ]

/-- Lookup in an association list (model of a Go map / keyed KV store). -/
def alistLookup (l : List (κ × α)) (k : κ) : Option α :=
  match l with
  | [] => none
  | (k', v) :: t => if k' = k then some v else alistLookup t k

/-- Insert-or-replace in an association list. -/
def alistUpdate (l : List (κ × α)) (k : κ) (v : α) : List (κ × α) :=
  match l with
  | [] => [(k, v)]
  | (k', v') :: t => if k' = k then (k, v) :: t else (k', v') :: alistUpdate t k v

/-- Delete a key from an association list. -/
def alistErase (l : List (κ × α)) (k : κ) : List (κ × α) :=
  match l with
  | [] => []
  | (k', v') :: t => if k' = k then alistErase t k else (k', v') :: alistErase t k

end AList

instance {ε α : Type} [DecidableEq ε] [DecidableEq α] : DecidableEq (Except ε α) := fun a b =>
  match a, b with
  | .ok x, .ok y =>
    if h : x = y then isTrue (by rw [h]) else isFalse (fun hc => h (by cases hc; rfl))
  | .error x, .error y =>
    if h : x = y then isTrue (by rw [h]) else isFalse (fun hc => h (by cases hc; rfl))
  | .ok _, .error _ => isFalse (fun hc => Except.noConfusion hc)
  | .error _, .ok _ => isFalse (fun hc => Except.noConfusion hc)

/-- `core.TxType`. -/
inductive TxType where
  | transfer
  | stake
  | unstake
  | delegate
  | undelegate
  | vote
  | createValidator
  | editValidator
  deriving DecidableEq

/-- The type-specific JSON payload carried in `Transaction.Data`.
`stakeData` models bytes that `json.Unmarshal` decodes into `core.StakeData`,
`createValidatorData` into `core.CreateValidatorData` (the string metadata
fields `Moniker`/`Website`/`Details` are unread by the executor and omitted);
`rawBytes` models bytes that fail to decode into the shape the handler expects. -/
inductive TxData where
  | rawBytes
  | stakeData (validator : Nat) (amount : Int)
  | createValidatorData (publicKey : Nat) (commission : Nat) (selfStake : Int)
  deriving DecidableEq

/-- `core.Transaction` (tx hash modelled as an abstract `Nat`; the signature
is kept as a byte list so that `Validate` can test it for emptiness). -/
structure Transaction where
  hash : Nat
  type : TxType
  fromAddr : Nat
  toAddr : Nat
  value : Int
  data : TxData
  nonce : Nat
  gasLimit : Nat
  gasPrice : Int
  signature : List Nat
  deriving DecidableEq

/-- `Transaction.GetCost`: `value + int64(gasLimit) * gasPrice`. -/
def Transaction.getCost (tx : Transaction) : Int :=
  tx.value + toInt64 tx.gasLimit * tx.gasPrice

/-- `Transaction.Validate` (basic stateless validation used by the mempool). -/
def Transaction.validate (tx : Transaction) : Except String Unit :=
  if tx.value < 0 then .error "invalid transaction value"
  else if tx.gasLimit = 0 then .error "invalid gas limit"
  else if tx.gasPrice ≤ 0 then .error "invalid gas price"
  else if tx.signature = [] then .error "missing signature"
  else .ok ()

/-- The contents of `storage.StateDB`: the account, validator and delegation
column families of the KV store (keys `account:`/`validator:`/`delegation:`). -/
structure StateDB where
  accounts : List (Nat × Account)
  validators : List (Nat × Validator)
  delegations : List ((Nat × Nat) × Delegation)
  deriving DecidableEq

/-- `StateDB.GetAccount` (misses surface BadgerDB's key-not-found error). -/
def getAccount (s : StateDB) (addr : Nat) : Except String Account :=
  match alistLookup s.accounts addr with
  | some a => .ok a
  | none => .error "key not found"

/-- `StateDB.SetAccount`. -/
def setAccount (s : StateDB) (a : Account) : StateDB :=
  { s with accounts := alistUpdate s.accounts a.address a }

/-- `StateDB.GetValidator`. -/
def getValidatorS (s : StateDB) (addr : Nat) : Except String Validator :=
  match alistLookup s.validators addr with
  | some v => .ok v
  | none => .error "key not found"

/-- `StateDB.SetValidator`. -/
def setValidatorS (s : StateDB) (v : Validator) : StateDB :=
  { s with validators := alistUpdate s.validators v.address v }

/-- `StateDB.GetDelegation`. -/
def getDelegationS (s : StateDB) (delegator validator : Nat) : Except String Delegation :=
  match alistLookup s.delegations (delegator, validator) with
  | some d => .ok d
  | none => .error "key not found"

/-- `StateDB.SetDelegation`. -/
def setDelegationS (s : StateDB) (d : Delegation) : StateDB :=
  { s with delegations := alistUpdate s.delegations (d.delegator, d.validator) d }

/-- `StateDB.DeleteDelegation`. -/
def deleteDelegationS (s : StateDB) (delegator validator : Nat) : StateDB :=
  { s with delegations := alistErase s.delegations (delegator, validator) }

/-- `json.Unmarshal(tx.Data, &StakeData)`. -/
def decodeStakeData (d : TxData) : Except String (Nat × Int) :=
  match d with
  | .stakeData v a => .ok (v, a)
  | _ => .error "invalid stake data"

/-- `json.Unmarshal(tx.Data, &CreateValidatorData)`. -/
def decodeCreateValidatorData (d : TxData) : Except String (Nat × Nat × Int) :=
  match d with
  | .createValidatorData pk c ss => .ok (pk, c, ss)
  | _ => .error "invalid create validator data"

/-- `Executor.executeTransfer`. The recipient is read from the store as it
was before the sender was written back (`GetAccount` decodes a fresh copy),
exactly as in the Go code where both reads precede both `SetAccount` calls. -/
def executeTransfer (s : StateDB) (tx : Transaction) : Except String StateDB :=
  match getAccount s tx.fromAddr with
  | .error e => .error e
  | .ok sender =>
    if sender.nonce ≠ tx.nonce then .error "invalid nonce"
    else
      let cost := tx.getCost
      if sender.balance < cost then .error "insufficient balance"
      else
        let sender := (sender.subBalance cost)
        let sender := { sender with nonce := u64 (sender.nonce + 1) }
        let recipient :=
          match getAccount s tx.toAddr with
          | .error _ => newAccount tx.toAddr
          | .ok r => r
        let recipient := recipient.addBalance tx.value
        let s := setAccount s sender
        let s := setAccount s recipient
        .ok s

/-- `Executor.executeStake`. -/
def executeStake (s : StateDB) (tx : Transaction) : Except String StateDB :=
  match decodeStakeData tx.data with
  | .error e => .error e
  | .ok (_, amount) =>
    match getAccount s tx.fromAddr with
    | .error e => .error e
    | .ok account =>
      if account.balance < amount then .error "insufficient balance for staking"
      else
        let account := (account.subBalance amount).addStake amount
        let account := { account with nonce := u64 (account.nonce + 1) }
        .ok (setAccount s account)

/-- `Executor.executeUnstake`. -/
def executeUnstake (s : StateDB) (tx : Transaction) : Except String StateDB :=
  match decodeStakeData tx.data with
  | .error e => .error e
  | .ok (_, amount) =>
    match getAccount s tx.fromAddr with
    | .error e => .error e
    | .ok account =>
      if account.staked < amount then .error "insufficient staked amount"
      else
        let account := account.subStake amount
        let account := { account with locked := account.locked + amount }
        let account := { account with nonce := u64 (account.nonce + 1) }
        .ok (setAccount s account)

/-- `Executor.executeDelegate`. -/
def executeDelegate (s : StateDB) (tx : Transaction) : Except String StateDB :=
  match decodeStakeData tx.data with
  | .error e => .error e
  | .ok (valAddr, amount) =>
    match getAccount s tx.fromAddr with
    | .error e => .error e
    | .ok account =>
      if account.balance < amount then .error "insufficient balance for delegation"
      else
        match getValidatorS s valAddr with
        | .error _ => .error "validator not found"
        | .ok validator =>
          let delegation :=
            match getDelegationS s tx.fromAddr valAddr with
            | .error _ => newDelegation tx.fromAddr valAddr amount
            | .ok d => { d with amount := d.amount + amount }
          let account := (account.subBalance amount).addStake amount
          let account := { account with nonce := u64 (account.nonce + 1) }
          let validator := validator.addVotingPower amount
          let s := setAccount s account
          let s := setValidatorS s validator
          let s := setDelegationS s delegation
          .ok s

/-- `Executor.executeUndelegate`. Note that the Go code calls
`account.SubStake` without checking the staked amount and discards the Bool
result, so when `staked < amount` the staked field stays unchanged while
`locked` still grows. -/
def executeUndelegate (s : StateDB) (tx : Transaction) : Except String StateDB :=
  match decodeStakeData tx.data with
  | .error e => .error e
  | .ok (valAddr, amount) =>
    match getDelegationS s tx.fromAddr valAddr with
    | .error _ => .error "delegation not found"
    | .ok delegation =>
      if delegation.amount < amount then .error "insufficient delegated amount"
      else
        match getValidatorS s valAddr with
        | .error e => .error e
        | .ok validator =>
          match getAccount s tx.fromAddr with
          | .error e => .error e
          | .ok account =>
            let delegation := { delegation with amount := delegation.amount - amount }
            let validator := validator.subVotingPower amount
            let account := account.subStake amount
            let account := { account with locked := account.locked + amount }
            let account := { account with nonce := u64 (account.nonce + 1) }
            let s := setAccount s account
            let s := setValidatorS s validator
            if delegation.amount = 0 then .ok (deleteDelegationS s tx.fromAddr valAddr)
            else .ok (setDelegationS s delegation)

/-- `Executor.executeCreateValidator`. -/
def executeCreateValidator (s : StateDB) (tx : Transaction) : Except String StateDB :=
  match decodeCreateValidatorData tx.data with
  | .error e => .error e
  | .ok (pubKey, commission, selfStake) =>
    match getAccount s tx.fromAddr with
    | .error e => .error e
    | .ok account =>
      if account.balance < selfStake then .error "insufficient balance for self-stake"
      else
        let validator := newValidator tx.fromAddr pubKey selfStake commission
        let account := (account.subBalance selfStake).addStake selfStake
        let account := { account with nonce := u64 (account.nonce + 1) }
        let s := setAccount s account
        .ok (setValidatorS s validator)

/-- `Executor.ExecuteTransaction` (dispatch; `TxTypeVote` and
`TxTypeEditValidator` fall through to the default branch). -/
def executeTransaction (s : StateDB) (tx : Transaction) : Except String StateDB :=
  match tx.type with
  | .transfer => executeTransfer s tx
  | .stake => executeStake s tx
  | .unstake => executeUnstake s tx
  | .delegate => executeDelegate s tx
  | .undelegate => executeUndelegate s tx
  | .createValidator => executeCreateValidator s tx
  | .vote => .error "unknown transaction type"
  | .editValidator => .error "unknown transaction type"

/-- `core.Block`, reduced to the field the executor reads. -/
structure Block where
  transactions : List Transaction
  deriving DecidableEq

/-- The loop body of `Executor.ExecuteBlock`: each successful transaction is
committed to the `StateDB` immediately; on the first failure the loop returns
the error, and the store keeps everything already committed. -/
def executeTxs (s : StateDB) (txs : List Transaction) : Option String × StateDB :=
  match txs with
  | [] => (none, s)
  | tx :: rest =>
    match executeTransaction s tx with
    | .ok s1 => executeTxs s1 rest
    | .error e => (some e, s)

/-- `Executor.ExecuteBlock`: the pair is (returned error if any, contents of
the shared `StateDB` when the call returns). -/
def executeBlock (s : StateDB) (b : Block) : Option String × StateDB :=
  executeTxs s b.transactions

/-- The registries of `consensus.DPoS`: the validator map and the
delegator→validator→delegation map (modelled flat, keyed by the pair). -/
structure DPoSState where
  validators : List (Nat × Validator)
  delegations : List ((Nat × Nat) × Delegation)
  deriving DecidableEq

/-- `DPoS.Delegate` (part_004): requires the validator to exist, creates or
tops up the delegation, then adds the amount to the validator's voting power. -/
def dposDelegate (s : DPoSState) (delegator validator : Nat) (amount : Int) :
    Except String DPoSState :=
  match alistLookup s.validators validator with
  | none => .error "validator not found"
  | some val =>
    let delegation :=
      match alistLookup s.delegations (delegator, validator) with
      | none => newDelegation delegator validator amount
      | some d => { d with amount := d.amount + amount }
    let s := { s with delegations := alistUpdate s.delegations (delegator, validator) delegation }
    .ok { s with validators := alistUpdate s.validators validator (val.addVotingPower amount) }

/-- `DPoS.Undelegate` (part_004): requires an existing delegation covering the
amount, decrements it, subtracts voting power (clamped at 0 by
`SubVotingPower`) and drops the delegation when it reaches zero. The Go code
reads `d.validators[validator]` without an existence check and would
dereference a nil pointer if the validator were absent; that (unreachable for
delegations created through `Delegate`) path is modelled as an error. -/
def dposUndelegate (s : DPoSState) (delegator validator : Nat) (amount : Int) :
    Except String DPoSState :=
  match alistLookup s.delegations (delegator, validator) with
  | none => .error "delegation not found"
  | some delegation =>
    if delegation.amount < amount then .error "insufficient delegated amount"
    else
      let delegation : Delegation := { delegation with amount := delegation.amount - amount }
      match alistLookup s.validators validator with
      | none => .error "nil validator"
      | some val =>
        let s := { s with validators := alistUpdate s.validators validator (val.subVotingPower amount) }
        if delegation.amount = 0 then
          .ok { s with delegations := alistErase s.delegations (delegator, validator) }
        else
          .ok { s with delegations := alistUpdate s.delegations (delegator, validator) delegation }

/-- The comparison `sort.Slice` is given in `DPoS.SelectValidators`:
strictly greater voting power sorts first; equal voting powers are tied
(no further key, in particular not the address). -/
def byPowerDesc (a b : Validator) : Prop := b.votingPower ≤ a.votingPower

instance : DecidableRel byPowerDesc := fun a b => Int.decLe b.votingPower a.votingPower

instance : IsTotal Validator byPowerDesc :=
  ⟨fun a b => le_total b.votingPower a.votingPower⟩

instance : IsTrans Validator byPowerDesc :=
  ⟨fun _ _ _ hab hbc => le_trans hbc hab⟩

/-- `DPoS.SelectValidators`: filters the registered validators to those that
can produce blocks, sorts descending by voting power and takes the top
`MaxValidators`. The input list stands for the values of the Go map
`d.validators` in iteration order, which Go leaves unspecified; the
comparison sort is modelled by `List.insertionSort` over `byPowerDesc`. -/
def selectValidators (vals : List Validator) : List Validator :=
  ((vals.filter Validator.canProduceBlocks).insertionSort byPowerDesc).take maxValidators

/-- `DPoS.GetBlockProducer`: round-robin over the active set by block number;
fails when the active set is empty. -/
def getBlockProducer (activeValidators : List Validator) (blockNumber : Nat) :
    Except String Validator :=
  if hne : activeValidators.length = 0 then .error "no active validators"
  else
    .ok (activeValidators.get
      ⟨blockNumber % activeValidators.length, Nat.mod_lt _ (Nat.pos_of_ne_zero hne)⟩)

/-- `consensus.SlashingReason`. -/
inductive SlashingReason where
  | doubleSign
  | downtime
  | invalidBlock
  deriving DecidableEq

/-- `consensus.SlashingEvent`. -/
structure SlashingEvent where
  validator : Nat
  reason : SlashingReason
  amount : Int
  blockNum : Nat
  deriving DecidableEq

/-- The slash fraction in basis points. The Go code computes
`big.NewInt(int64(slashPercentage * 10000))` from the float64 constants
0.05, 0.01 and 0.03; all three products round to exactly 500.0, 100.0 and
300.0 in float64 arithmetic, so the conversion yields exactly these
integers. -/
def slashBP : SlashingReason → Int
  | .doubleSign => 500
  | .downtime => 100
  | .invalidBlock => 300

/-- `Slasher.SlashValidator` (pkg/consensus/slashing.go): looks the validator
up in the DPoS registry, subtracts `votingPower * bp / 10000` from the voting
power (clamped at 0 by `SubVotingPower`) and `selfStake * bp / 10000` from
the self-stake (plain subtraction), appends the slashing event (whose amount
is the voting-power slash), and jails for double-sign and invalid-block.
`GetValidator` returns a pointer into the map, so the mutations land in the
registry: modelled as a map update. -/
def slasherSlashValidator (s : DPoSState) (events : List SlashingEvent)
    (address : Nat) (reason : SlashingReason) (blockNum : Nat) :
    Except String (DPoSState × List SlashingEvent) :=
  match alistLookup s.validators address with
  | none => .error "validator not found"
  | some validator =>
    let bp := slashBP reason
    let slashAmount := (validator.votingPower * bp) / 10000
    let validator := validator.subVotingPower slashAmount
    let selfStakeSlash := (validator.selfStake * bp) / 10000
    let validator := { validator with selfStake := validator.selfStake - selfStakeSlash }
    let event : SlashingEvent :=
      { validator := address, reason := reason, amount := slashAmount, blockNum := blockNum }
    let validator :=
      if reason = SlashingReason.doubleSign ∨ reason = SlashingReason.invalidBlock then
        { validator with jailed := true, status := ValidatorStatus.jailed }
      else validator
    .ok ({ s with validators := alistUpdate s.validators address validator }, events ++ [event])

/-- `staking.StakingManager` (pkg/staking/staking.go): the unbonding queue
keyed by delegator, plus the configured minimum stake and unbonding period.
`NewStakingManager` sets `minStakeAmount = ToWei(10.0) = 10^19` (exact) and
`unbondingPeriod = types.UnbondingPeriod`. -/
structure StakingManager where
  unbondingQueue : List (Nat × List UnbondingDelegation)
  minStakeAmount : Int
  unbondingPeriod : Nat
  deriving DecidableEq

/-- `NewStakingManager`. -/
def newStakingManager : StakingManager :=
  { unbondingQueue := [], minStakeAmount := 10 ^ 19, unbondingPeriod := unbondingPeriodConst }

/-- `StakingManager.Unstake`: undelegates through the DPoS engine, then
appends an `UnbondingDelegation` completing at
`currentBlock + unbondingPeriod` (uint64 addition) to the delegator's queue
(a missing key reads as the empty slice, as for a Go map). -/
def smUnstake (dpos : DPoSState) (sm : StakingManager)
    (delegator validator : Nat) (amount : Int) (currentBlock : Nat) :
    Except String (DPoSState × StakingManager) :=
  match dposUndelegate dpos delegator validator amount with
  | .error e => .error e
  | .ok dpos1 =>
    let unbonding : UnbondingDelegation :=
      { delegator := delegator, validator := validator, amount := amount,
        completionBlock := u64 (currentBlock + sm.unbondingPeriod) }
    let queue := alistUpdate sm.unbondingQueue delegator
      (((alistLookup sm.unbondingQueue delegator).getD []) ++ [unbonding])
    .ok (dpos1, { sm with unbondingQueue := queue })

/-- The loop of `StakingManager.ProcessUnbonding` over the queue entries:
per delegator, entries with `currentBlock ≥ completionBlock` go to the
completed list; the remaining entries stay under the delegator's key, the
key being deleted when none remain. The association list order stands for
the Go map iteration order. -/
def processQueue (q : List (Nat × List UnbondingDelegation)) (currentBlock : Nat) :
    List UnbondingDelegation × List (Nat × List UnbondingDelegation) :=
  match q with
  | [] => ([], [])
  | (delegator, unbondings) :: rest =>
    let completed := unbondings.filter (fun u => decide (currentBlock ≥ u.completionBlock))
    let remaining := unbondings.filter (fun u => ! decide (currentBlock ≥ u.completionBlock))
    let tail := processQueue rest currentBlock
    (completed ++ tail.1,
     if remaining ≠ [] then (delegator, remaining) :: tail.2 else tail.2)

/-- `StakingManager.ProcessUnbonding` (its error result is always nil). -/
def smProcessUnbonding (sm : StakingManager) (currentBlock : Nat) :
    List UnbondingDelegation × StakingManager :=
  let r := processQueue sm.unbondingQueue currentBlock
  (r.1, { sm with unbondingQueue := r.2 })

/-- Element access used by the heap model: Go indexes the txHeap slice
directly; indices are always in bounds in the heap algorithms. -/
def txAt (l : List Transaction) (i : Nat) : Transaction :=
  l.getD i { hash := 0, type := TxType.transfer, fromAddr := 0, toAddr := 0,
             value := 0, data := TxData.rawBytes, nonce := 0, gasLimit := 0,
             gasPrice := 0, signature := [] }

/-- Swap of two list positions (`txHeap.Swap`). -/
def lswap (l : List Transaction) (i j : Nat) : List Transaction :=
  match l.get? i, l.get? j with
  | some x, some y => (l.set i y).set j x
  | _, _ => l

/-- `txHeap.Less i j`: higher gas price sorts first (a max-heap on gas
price), `h[i].GasPrice.Cmp(h[j].GasPrice) > 0`. -/
def heapLess (l : List Transaction) (i j : Nat) : Bool :=
  (txAt l j).gasPrice < (txAt l i).gasPrice

/-- `container/heap.up`, with explicit fuel for structural recursion; the
parent index `(j-1)/2` strictly decreases, so fuel `j+1` always suffices. -/
def heapUpGo : Nat → List Transaction → Nat → List Transaction
  | 0, l, _ => l
  | fuel + 1, l, j =>
    if j = 0 then l
    else
      let i := (j - 1) / 2
      if heapLess l j i then heapUpGo fuel (lswap l i j) i else l

/-- `container/heap.up` entry point. -/
def heapUp (l : List Transaction) (j : Nat) : List Transaction :=
  heapUpGo (j + 1) l j

/-- `container/heap.down`, with explicit fuel; the index `i` strictly
increases and stays below `n`, so fuel `n` always suffices. -/
def heapDownGo : Nat → List Transaction → Nat → Nat → List Transaction
  | 0, l, _, _ => l
  | fuel + 1, l, i, n =>
    let j1 := 2 * i + 1
    if j1 < n then
      let j := if j1 + 1 < n && heapLess l (j1 + 1) j1 then j1 + 1 else j1
      if heapLess l j i then heapDownGo fuel (lswap l i j) j n else l
    else l

/-- `container/heap.down` entry point. -/
def heapDown (l : List Transaction) (i n : Nat) : List Transaction :=
  heapDownGo n l i n

/-- `heap.Push` specialized to `txHeap`: append, then sift up from the last
index (`PriorityQueue.Push`). -/
def pqPush (l : List Transaction) (tx : Transaction) : List Transaction :=
  heapUp (l ++ [tx]) l.length

/-- `PriorityQueue.Pop`: returns nil on an empty queue; otherwise
`heap.Pop`, which swaps the root to the end, sifts down over the first
`len-1` positions and removes the last element — yielding the Less-minimal
element, here the transaction with the highest gas price. -/
def pqPop (l : List Transaction) : Option Transaction × List Transaction :=
  match l with
  | [] => (none, [])
  | _ =>
    let n := l.length - 1
    let l1 := lswap l 0 n
    let l2 := heapDown l1 0 n
    (some (txAt l2 n), l2.take n)

/-- `mempool.Mempool`: the hash-keyed transaction index, the priority queue
and the capacity bound. -/
structure Mempool where
  transactions : List (Nat × Transaction)
  queue : List Transaction
  maxSize : Nat
  deriving DecidableEq

/-- `mempool.NewMempool`. -/
def newMempool (maxSize : Nat) : Mempool :=
  { transactions := [], queue := [], maxSize := maxSize }

/-- `Mempool.AddTransaction`: reject duplicates by hash, validate, and when
the index already holds `maxSize` transactions pop one element from the
priority queue (deleting it from the index when non-nil) before inserting
the incoming transaction into both structures. -/
def addTransaction (m : Mempool) (tx : Transaction) : Except String Mempool :=
  if (alistLookup m.transactions tx.hash).isSome then .error "transaction already in mempool"
  else
    match tx.validate with
    | .error e => .error e
    | .ok _ =>
      let m :=
        if m.transactions.length ≥ m.maxSize then
          match pqPop m.queue with
          | (some lowest, q1) =>
            { m with queue := q1, transactions := alistErase m.transactions lowest.hash }
          | (none, q1) => { m with queue := q1 }
        else m
      .ok { m with transactions := alistUpdate m.transactions tx.hash tx,
                   queue := pqPush m.queue tx }

/-- The DPoS-registry operations quantified over by the voting-power
invariant: `DPoS.Delegate`, `DPoS.Undelegate` and `Slasher.SlashValidator`. -/
inductive DPoSOp where
  | delegate (delegator validator : Nat) (amount : Int)
  | undelegate (delegator validator : Nat) (amount : Int)
  | slash (validator : Nat) (reason : SlashingReason) (blockNum : Nat)
  deriving DecidableEq

/-- Combined registry-plus-slashing-events state acted on by `DPoSOp`s. -/
structure SlasherState where
  dpos : DPoSState
  events : List SlashingEvent
  deriving DecidableEq

/-- One operation applied to the registry; a failed operation leaves the
state unchanged (each Go handler returns its error before any mutation). -/
def applyOp (s : SlasherState) (op : DPoSOp) : SlasherState :=
  match op with
  | .delegate d v a =>
    match dposDelegate s.dpos d v a with
    | .ok st => { s with dpos := st }
    | .error _ => s
  | .undelegate d v a =>
    match dposUndelegate s.dpos d v a with
    | .ok st => { s with dpos := st }
    | .error _ => s
  | .slash v r bn =>
    match slasherSlashValidator s.dpos s.events v r bn with
    | .ok (st, evs) => { dpos := st, events := evs }
    | .error _ => s

/-- A sequence of registry operations, applied left to right. -/
def applyOps (s : SlasherState) (ops : List DPoSOp) : SlasherState :=
  ops.foldl applyOp s

/-- The side condition the voting-power invariant needs: delegated amounts
are non-negative (token amounts); the other operations need no condition. -/
def opDelegateNonneg : DPoSOp → Bool
  | .delegate _ _ a => 0 ≤ a
  | .undelegate _ _ _ => true
  | .slash _ _ _ => true

/-- Voting power of every registered validator is non-negative. -/
def vpInvariant (s : SlasherState) : Prop :=
  ∀ p ∈ s.dpos.validators, 0 ≤ (p.2 : Validator).votingPower

/-- Well-formedness of the account column family: each stored account is
keyed by its own address (the only states `SetAccount` ever produces,
since it derives the key from `account.Address`). -/
def accountsWF (s : StateDB) : Prop :=
  ∀ p ∈ s.accounts, (p.2 : Account).address = p.1

/- Concrete scenario inputs used by counterexamples and witnesses. -/

/-- An account with the given address, balance and nonce (nothing staked). -/
def acct (a : Nat) (b : Int) (n : Nat) : Account :=
  { address := a, balance := b, nonce := n, staked := 0, locked := 0 }

/-- A transfer transaction with the given wiring and a 1-byte signature. -/
def mkTransfer (h fromA toA : Nat) (v : Int) (non gl : Nat) (gp : Int) : Transaction :=
  { hash := h, type := TxType.transfer, fromAddr := fromA, toAddr := toA,
    value := v, data := TxData.rawBytes, nonce := non, gasLimit := gl,
    gasPrice := gp, signature := [1] }

/-- Claim C1 scenario: account 1 holds 100 at nonce 0, account 2 is empty. -/
def c1s0 : StateDB := ⟨[(1, acct 1 100 0), (2, acct 2 0 0)], [], []⟩

/-- Claim C1 scenario: a valid transfer of 10 from 1 to 2 (cost 11). -/
def c1txGood : Transaction := mkTransfer 10 1 2 10 0 1 1

/-- Claim C1 scenario: a transfer from 1 carrying the wrong nonce 5. -/
def c1txBad : Transaction := mkTransfer 11 1 2 10 5 1 1

/-- Claim C1 scenario: the store contents after `c1txGood` alone. -/
def c1s1 : StateDB := ⟨[(1, acct 1 89 1), (2, acct 2 10 0)], [], []⟩

/-- Claim C2 scenario: two eligible validators with equal voting power `10^23`. -/
def c2v1 : Validator := newValidator 1 0 minStakeWei 0

/-- Claim C2 scenario: second validator, distinct address, same voting power. -/
def c2v2 : Validator := newValidator 2 0 minStakeWei 0

/-- Claim C2 witness scenario: eligible validators with distinct voting powers. -/
def c2w1 : Validator := newValidator 3 0 minStakeWei 0

/-- Claim C2 witness scenario: strictly larger voting power than `c2w1`. -/
def c2w2 : Validator := newValidator 4 0 (minStakeWei + 1) 0

/-- Claim C3 scenario: single account 1 holding 100 at nonce 0. -/
def c3s0 : StateDB := ⟨[(1, acct 1 100 0)], [], []⟩

/-- Claim C3 witness scenario: a transfer of 10 from 1 to 2 (distinct addresses). -/
def c3tx : Transaction := mkTransfer 12 1 2 10 0 1 1

/-- Claim C3 counterexample scenario: a self-transfer of 10 from 1 to 1. -/
def c3selfTx : Transaction := mkTransfer 13 1 1 10 0 1 1

/-- Claim C4 scenario: a stake transaction of amount 10 from account 1, nonce 0. -/
def c4stakeTx : Transaction :=
  { hash := 14, type := TxType.stake, fromAddr := 1, toAddr := 0, value := 0,
    data := TxData.stakeData 7 10, nonce := 0, gasLimit := 1, gasPrice := 1,
    signature := [1] }

/-- Claim C4 scenario: store contents after the stake executed once. -/
def c4s1 : StateDB := ⟨[(1, { address := 1, balance := 90, nonce := 1, staked := 10, locked := 0 })], [], []⟩

/-- Claim C5 scenario: valid transaction with the lowest gas price, 1. -/
def c5tx1 : Transaction := mkTransfer 1 1 2 0 0 21000 1

/-- Claim C5 scenario: valid transaction with the highest gas price, 5. -/
def c5tx2 : Transaction := mkTransfer 2 1 2 0 0 21000 5

/-- Claim C5 scenario: valid incoming transaction with gas price 3. -/
def c5tx3 : Transaction := mkTransfer 3 1 2 0 0 21000 3

/-- C6 witness scenario: a single-validator active set. -/
def c6v : Validator := newValidator 6 0 minStakeWei 0

/-- Claim C7 witness scenario: a validator with voting power and self-stake
1,000,000. -/
def c7val : Validator := newValidator 1 0 1000000 100

/-- Claim C7 witness scenario: a registry holding just `c7val`. -/
def c7dpos : DPoSState := ⟨[(1, c7val)], []⟩

/-- Claim C8 scenario: create-validator transaction with self-stake 50, far below
the network minimum `10^23`. -/
def c8tx : Transaction :=
  { hash := 15, type := TxType.createValidator, fromAddr := 1, toAddr := 0,
    value := 0, data := TxData.createValidatorData 9 100 50, nonce := 0,
    gasLimit := 1, gasPrice := 1, signature := [1] }

/-- Claim C9 witness scenario: validator 5 with a delegation of 50 from account 1. -/
def c9dpos : DPoSState :=
  ⟨[(5, newValidator 5 0 minStakeWei 100)], [((1, 5), newDelegation 1 5 50)]⟩

/-- Claim C9 witness scenario: registry state after unstaking 30 at height 10. -/
def c9dpos1 : DPoSState :=
  ⟨[(5, { newValidator 5 0 minStakeWei 100 with votingPower := minStakeWei - 30 })],
   [((1, 5), { delegator := 1, validator := 5, amount := 20, rewards := 0 })]⟩

/-- Claim C9 witness scenario: staking manager state after the unstake. -/
def c9sm1 : StakingManager :=
  { unbondingQueue := [(1, [{ delegator := 1, validator := 5, amount := 30,
                              completionBlock := 201610 }])],
    minStakeAmount := 10 ^ 19, unbondingPeriod := unbondingPeriodConst }

/-- Claim C10 witness scenario: one validator with voting power 5. -/
def c10s0 : SlasherState :=
  ⟨⟨[(1, { newValidator 1 0 5 0 with votingPower := 5 })], []⟩, []⟩

/-- Claim C10 witness scenario: a delegate, an undelegate exceeding the delegation,
and a downtime slash. -/
def c10ops : List DPoSOp :=
  [DPoSOp.delegate 2 1 7, DPoSOp.undelegate 2 1 3, DPoSOp.slash 1 SlashingReason.downtime 4]

section AListLemmas

variable {κ α : Type} [DecidableEq κ]

theorem alistLookup_update (l : List (κ × α)) (k k' : κ) (v : α) :
    alistLookup (alistUpdate l k v) k' = if k = k' then some v else alistLookup l k' := by
  induction l with
  | nil =>
    by_cases h : k = k' <;> simp [alistUpdate, alistLookup, h]
  | cons p t ih =>
    obtain ⟨pk, pv⟩ := p
    by_cases h1 : pk = k
    · by_cases h2 : k = k' <;> simp [alistUpdate, alistLookup, h1, h2]
    · by_cases h2 : pk = k'
      · have hne : ¬ k = k' := fun he => h1 (he ▸ h2)
        have hne2 : ¬ k' = k := fun he => hne he.symm
        simp [alistUpdate, alistLookup, h1, h2, hne, hne2]
      · simp [alistUpdate, alistLookup, h1, h2, ih]

theorem alistLookup_mem (l : List (κ × α)) (k : κ) (v : α)
    (h : alistLookup l k = some v) : (k, v) ∈ l := by
  induction l with
  | nil => simp [alistLookup] at h
  | cons p t ih =>
    obtain ⟨pk, pv⟩ := p
    by_cases h1 : pk = k
    · subst h1
      simp [alistLookup] at h
      exact h ▸ List.mem_cons_self _ _
    · simp [alistLookup, h1] at h
      exact List.mem_cons_of_mem _ (ih h)

theorem mem_alistUpdate (l : List (κ × α)) (k : κ) (v : α) (p : κ × α)
    (hp : p ∈ alistUpdate l k v) : p = (k, v) ∨ p ∈ l := by
  induction l with
  | nil => simpa [alistUpdate] using hp
  | cons q t ih =>
    obtain ⟨qk, qv⟩ := q
    by_cases h : qk = k
    · simp only [alistUpdate, h, if_pos rfl] at hp
      rcases List.mem_cons.mp hp with h1 | h1
      · exact Or.inl h1
      · exact Or.inr (List.mem_cons_of_mem _ h1)
    · simp only [alistUpdate, if_neg h] at hp
      rcases List.mem_cons.mp hp with h1 | h1
      · exact Or.inr (h1 ▸ List.mem_cons_self _ _)
      · rcases ih h1 with h2 | h2
        · exact Or.inl h2
        · exact Or.inr (List.mem_cons_of_mem _ h2)

theorem mem_alistErase (l : List (κ × α)) (k : κ) (p : κ × α)
    (hp : p ∈ alistErase l k) : p ∈ l := by
  induction l with
  | nil => simp [alistErase] at hp
  | cons q t ih =>
    obtain ⟨qk, qv⟩ := q
    by_cases h : qk = k
    · simp only [alistErase, h, if_pos rfl] at hp
      exact List.mem_cons_of_mem _ (ih hp)
    · simp only [alistErase, if_neg h] at hp
      rcases List.mem_cons.mp hp with h1 | h1
      · exact h1 ▸ List.mem_cons_self _ _
      · exact List.mem_cons_of_mem _ (ih h1)

end AListLemmas

theorem u64_of_lt {n : Nat} (h : n < 2 ^ 64) : u64 n = n :=
  Nat.mod_eq_of_lt h

theorem toInt64_of_lt {n : Nat} (h : n < 2 ^ 63) : toInt64 n = (n : Int) := by
  have h64 : n < 2 ^ 64 := lt_trans h (by norm_num)
  unfold toInt64
  rw [Nat.mod_eq_of_lt h64, if_pos h]

theorem getAccount_setAccount (s : StateDB) (a : Account) (addr : Nat) :
    getAccount (setAccount s a) addr =
      if a.address = addr then .ok a else getAccount s addr := by
  unfold getAccount setAccount
  dsimp only
  rw [alistLookup_update]
  by_cases h : a.address = addr <;> simp [h]

theorem getValidatorS_setValidatorS (s : StateDB) (v : Validator) (addr : Nat) :
    getValidatorS (setValidatorS s v) addr =
      if v.address = addr then .ok v else getValidatorS s addr := by
  unfold getValidatorS setValidatorS
  dsimp only
  rw [alistLookup_update]
  by_cases h : v.address = addr <;> simp [h]

theorem getAccount_setValidatorS (s : StateDB) (v : Validator) (addr : Nat) :
    getAccount (setValidatorS s v) addr = getAccount s addr := rfl

theorem getValidatorS_setAccount (s : StateDB) (a : Account) (addr : Nat) :
    getValidatorS (setAccount s a) addr = getValidatorS s addr := rfl

theorem subVotingPower_nonneg (v : Validator) (a : Int) :
    0 ≤ (v.subVotingPower a).votingPower := by
  unfold Validator.subVotingPower
  dsimp only
  split <;> omega

/-- Claim C6: `GetBlockProducer(h)` is a pure function of the active set and the
height: with a non-empty active set it returns `activeSet[h mod len]` and no
error; with an empty active set it fails with the "no active validators"
error. Both cases are captured by this single equation (for a non-empty set
`h % length` is in bounds, so `get?` returns exactly the indexed element);
the function takes the active set by value and returns it unchanged by
construction, so it never mutates it. -/
theorem getBlockProducer_spec (activeValidators : List Validator) (h : Nat) :
    getBlockProducer activeValidators h =
      match activeValidators.get? (h % activeValidators.length) with
      | some v => Except.ok v
      | none => Except.error "no active validators" := by
  unfold getBlockProducer
  by_cases h0 : activeValidators.length = 0
  · rw [dif_pos h0]
    have : activeValidators = [] := List.length_eq_zero.mp h0
    subst this
    rfl
  · rw [dif_neg h0]
    have hlt : h % activeValidators.length < activeValidators.length :=
      Nat.mod_lt _ (Nat.pos_of_ne_zero h0)
    rw [List.get?_eq_get hlt]

/-- Claim C4 (code bug): `executeStake` never compares the sender's nonce with the
transaction's nonce, so a stake transaction with nonce 0 executes
successfully against an account whose nonce has already advanced to 1: the
same transaction is executed twice, both times successfully, moving 10 to
the staked bucket each time. The claim (and spec §8) requires the replay to
fail. -/
theorem stake_replay_succeeds :
    c4stakeTx.nonce = 0 ∧
    executeTransaction ⟨[(1, acct 1 100 0)], [], []⟩ c4stakeTx = .ok c4s1 ∧
    (alistLookup c4s1.accounts 1).map Account.nonce = some 1 ∧
    executeTransaction c4s1 c4stakeTx =
      .ok ⟨[(1, { address := 1, balance := 80, nonce := 2, staked := 20, locked := 0 })], [], []⟩ :=
  ⟨rfl, rfl, rfl, rfl⟩

/-- Claim C5 (code bug): with `maxSize = 2` and the pool holding transactions with
gas prices 1 and 5, admitting a new valid transaction with gas price 3
evicts the gas-price-5 transaction — the *highest* priced one — because
`txHeap` is a max-heap on gas price and `heap.Pop` removes its root, while
`Mempool.AddTransaction`'s comment intends to "Remove lowest priority
transaction". The pool ends up holding gas prices 1 and 3 instead of the
claimed 5 and 3. -/
theorem mempool_evicts_highest_gas_price :
    c5tx1.gasPrice = 1 ∧ c5tx2.gasPrice = 5 ∧ c5tx3.gasPrice = 3 ∧
    (((addTransaction (newMempool 2) c5tx1).bind fun m1 =>
        (addTransaction m1 c5tx2).bind fun m2 =>
          addTransaction m2 c5tx3).map fun m =>
        (alistLookup m.transactions 1, alistLookup m.transactions 2,
         alistLookup m.transactions 3)) =
      .ok (some c5tx1, none, some c5tx3) :=
  ⟨rfl, rfl, rfl, rfl⟩

/-- Claim C1 (counterexample): a block whose first transfer is valid and whose
second carries a bad nonce makes `ExecuteBlock` fail, yet account 1 shows
balance 89 and nonce 1 afterwards where it held balance 100 and nonce 0
before — the state written by the earlier transaction of the failed block
remains committed. -/
theorem executeBlock_partial_commit_counterexample :
    (executeBlock c1s0 ⟨[c1txGood, c1txBad]⟩).1 = some "invalid nonce" ∧
    getAccount (executeBlock c1s0 ⟨[c1txGood, c1txBad]⟩).2 1 = .ok (acct 1 89 1) ∧
    getAccount c1s0 1 = .ok (acct 1 100 0) ∧
    getAccount (executeBlock c1s0 ⟨[c1txGood, c1txBad]⟩).2 1 ≠ getAccount c1s0 1 :=
  ⟨rfl, rfl, rfl, by decide⟩

/-- Claim C2 (counterexample): two registrations of the same two eligible
validators with equal voting power, presented in the two possible map
iteration orders, produce differently ordered active sets — the comparison
`sort.Slice` is given compares voting power only, so ties carry no address
tie-break and the result depends on the iteration order of the validator
map. -/
theorem selectValidators_tie_counterexample :
    List.Perm [c2v1, c2v2] [c2v2, c2v1] ∧
    selectValidators [c2v1, c2v2] ≠ selectValidators [c2v2, c2v1] :=
  ⟨List.Perm.swap c2v2 c2v1 [], by decide⟩

/-- Claim C3 (counterexample): a successful self-transfer (`tx.To = tx.From`) of
value 10 with cost 11 leaves the account with balance 110 and nonce 0:
`GetAccount` decodes copies, so the recipient read happens before the
debited sender is written back and the final `SetAccount` overwrites the
debit and the nonce increment with the stale copy plus the value. The
claim's success postcondition (balance decreases by value+gas, nonce
increases by 1) fails. -/
theorem executeTransfer_self_transfer_counterexample :
    c3selfTx.toAddr = c3selfTx.fromAddr ∧
    executeTransaction c3s0 c3selfTx = .ok ⟨[(1, acct 1 110 0)], [], []⟩ :=
  ⟨rfl, rfl⟩

/-- Claim C8 (counterexample): a create-validator transaction whose self-stake 50
is far below the network minimum `10^23` still executes successfully —
`executeCreateValidator` checks only `balance ≥ selfStake` and never the
minimum (unlike `DPoS.RegisterValidator`, which the executor bypasses by
writing the validator straight to the state store). -/
theorem createValidator_below_min_counterexample :
    (50 : Int) < minStakeWei ∧
    executeTransaction c3s0 c8tx =
      .ok ⟨[(1, { address := 1, balance := 50, nonce := 1, staked := 50, locked := 0 })],
           [(1, newValidator 1 9 50 100)], []⟩ :=
  ⟨by decide, rfl⟩

/-- Claim C1 (amended): `ExecuteBlock` applies the block's transactions in list
order and fails at the first failing transaction, executing none of the
later ones — but the state committed by the earlier, successful
transactions of the block remains in the store (the returned state is the
one reached just before the failing transaction, not the pre-block state;
there is no rollback). -/
theorem executeBlock_stops_at_first_failure
    (s s1 : StateDB) (txs1 txs2 : List Transaction) (tx : Transaction) (e : String)
    (h1 : executeBlock s ⟨txs1⟩ = (none, s1))
    (h2 : executeTransaction s1 tx = .error e) :
    executeBlock s ⟨txs1 ++ tx :: txs2⟩ = (some e, s1) := by
  have h1a : executeTxs s txs1 = (none, s1) := h1
  show executeTxs s (txs1 ++ tx :: txs2) = (some e, s1)
  clear h1
  revert h1a
  induction txs1 generalizing s with
  | nil =>
    intro h1a
    have hs : s = s1 := by simpa [executeTxs] using h1a
    subst hs
    simp [executeTxs, h2]
  | cons a t ih =>
    intro h1a
    cases hE : executeTransaction s a with
    | ok s2 =>
      have h1t : executeTxs s2 t = (none, s1) := by
        simpa [executeTxs, hE] using h1a
      simpa [executeTxs, hE] using ih s2 h1t
    | error e2 =>
      exfalso
      simp [executeTxs, hE] at h1a

/-- Witness for C1 at the concrete two-transaction block. -/
theorem executeBlock_stops_at_first_failure_witness :
    executeBlock c1s0 ⟨[c1txGood, c1txBad]⟩ = (some "invalid nonce", c1s1) :=
  executeBlock_stops_at_first_failure c1s0 c1s1 [c1txGood] [] c1txBad "invalid nonce" rfl rfl

/-- A sorted list of validators is determined by its multiset of elements
when their voting powers are pairwise distinct (the sort relation compares
voting power only, so distinct powers make it antisymmetric on the list). -/
theorem sorted_eq_of_perm_of_nodup_power :
    ∀ l1 l2 : List Validator, l1.Perm l2 → l1.Sorted byPowerDesc →
      l2.Sorted byPowerDesc → (l1.map Validator.votingPower).Nodup → l1 = l2 := by
  intro l1
  induction l1 with
  | nil =>
    intro l2 hp _ _ _
    exact hp.nil_eq
  | cons a t ih =>
    intro l2 hp h1 h2 hnd
    cases l2 with
    | nil => exact absurd hp.eq_nil (by simp)
    | cons b s =>
      by_cases hab : a = b
      · subst hab
        have ht : t.Perm s := hp.cons_inv
        have htn : (t.map Validator.votingPower).Nodup := by
          simp only [List.map_cons, List.nodup_cons] at hnd
          exact hnd.2
        rw [ih s ht h1.of_cons h2.of_cons htn]
      · exfalso
        have has : a ∈ s := by
          have hm : a ∈ b :: s := hp.subset (List.mem_cons_self a t)
          rcases List.mem_cons.mp hm with h | h
          · exact absurd h hab
          · exact h
        have hbt : b ∈ t := by
          have hm : b ∈ a :: t := hp.symm.subset (List.mem_cons_self b s)
          rcases List.mem_cons.mp hm with h | h
          · exact absurd h.symm hab
          · exact h
        have hba : b.votingPower ≤ a.votingPower := (List.sorted_cons.mp h1).1 b hbt
        have hab2 : a.votingPower ≤ b.votingPower := (List.sorted_cons.mp h2).1 a has
        have heq : a.votingPower = b.votingPower := le_antisymm hab2 hba
        simp only [List.map_cons, List.nodup_cons] at hnd
        exact hnd.1 (by rw [heq]; exact List.mem_map_of_mem Validator.votingPower hbt)

/-- Claim C2 (amended): `SelectValidators` filters to the eligible validators,
sorts descending by voting power and takes the top `MaxValidators`; the code
breaks ties by nothing (not by address), so the result is independent of the
validator-map iteration order exactly when the eligible validators' voting
powers are pairwise distinct. Under that distinctness assumption two
invocations on identical validator state (two arbitrary iteration orders of
the same map, i.e. permutations of each other) return the same ordered
active set. -/
theorem selectValidators_deterministic (l1 l2 : List Validator)
    (hp : l1.Perm l2)
    (hnd : ((l1.filter Validator.canProduceBlocks).map Validator.votingPower).Nodup) :
    selectValidators l1 = selectValidators l2 := by
  unfold selectValidators
  congr 1
  apply sorted_eq_of_perm_of_nodup_power
  · exact (List.perm_insertionSort byPowerDesc _).trans
      ((hp.filter _).trans (List.perm_insertionSort byPowerDesc _).symm)
  · exact List.sorted_insertionSort byPowerDesc _
  · exact List.sorted_insertionSort byPowerDesc _
  · exact (((List.perm_insertionSort byPowerDesc _).map Validator.votingPower).nodup_iff).mpr hnd

/-- Witness for C2: two eligible validators with distinct voting powers give
the same active set in either iteration order. -/
theorem selectValidators_deterministic_witness :
    selectValidators [c2w1, c2w2] = selectValidators [c2w2, c2w1] :=
  selectValidators_deterministic [c2w1, c2w2] [c2w2, c2w1]
    (List.Perm.swap c2w2 c2w1 []) (by decide)

theorem dposDelegate_vp (s : DPoSState) (d v : Nat) (a : Int) (ha : 0 ≤ a)
    (hinv : ∀ p ∈ s.validators, 0 ≤ (p.2 : Validator).votingPower)
    (s1 : DPoSState) (hok : dposDelegate s d v a = .ok s1) :
    ∀ p ∈ s1.validators, 0 ≤ (p.2 : Validator).votingPower := by
  intro p hp
  cases hv : alistLookup s.validators v with
  | none => simp [dposDelegate, hv] at hok
  | some val =>
    simp only [dposDelegate, hv] at hok
    rw [Except.ok.injEq] at hok
    subst hok
    rcases mem_alistUpdate _ _ _ _ hp with h | h
    · subst h
      have hval : 0 ≤ val.votingPower := hinv (v, val) (alistLookup_mem _ _ _ hv)
      simpa [Validator.addVotingPower] using add_nonneg hval ha
    · exact hinv p h

theorem dposUndelegate_vp (s : DPoSState) (d v : Nat) (a : Int)
    (hinv : ∀ p ∈ s.validators, 0 ≤ (p.2 : Validator).votingPower)
    (s1 : DPoSState) (hok : dposUndelegate s d v a = .ok s1) :
    ∀ p ∈ s1.validators, 0 ≤ (p.2 : Validator).votingPower := by
  intro p hp
  cases hd : alistLookup s.delegations (d, v) with
  | none => simp [dposUndelegate, hd] at hok
  | some delegation =>
    by_cases hamt : delegation.amount < a
    · simp [dposUndelegate, hd, hamt] at hok
    · cases hv : alistLookup s.validators v with
      | none => simp [dposUndelegate, hd, hamt, hv] at hok
      | some val =>
        simp only [dposUndelegate, hd, hv, if_neg hamt] at hok
        by_cases hz : delegation.amount - a = 0
        · rw [if_pos hz, Except.ok.injEq] at hok
          subst hok
          rcases mem_alistUpdate _ _ _ _ hp with h | h
          · subst h
            exact subVotingPower_nonneg val a
          · exact hinv p h
        · rw [if_neg hz, Except.ok.injEq] at hok
          subst hok
          rcases mem_alistUpdate _ _ _ _ hp with h | h
          · subst h
            exact subVotingPower_nonneg val a
          · exact hinv p h

theorem slasherSlash_vp (s : DPoSState) (events : List SlashingEvent)
    (v : Nat) (r : SlashingReason) (bn : Nat)
    (hinv : ∀ p ∈ s.validators, 0 ≤ (p.2 : Validator).votingPower)
    (s1 : DPoSState) (evs : List SlashingEvent)
    (hok : slasherSlashValidator s events v r bn = .ok (s1, evs)) :
    ∀ p ∈ s1.validators, 0 ≤ (p.2 : Validator).votingPower := by
  intro p hp
  cases hv : alistLookup s.validators v with
  | none => simp [slasherSlashValidator, hv] at hok
  | some val =>
    simp only [slasherSlashValidator, hv, Except.ok.injEq, Prod.mk.injEq] at hok
    obtain ⟨hs1, _⟩ := hok
    subst hs1
    rcases mem_alistUpdate _ _ _ _ hp with h | h
    · subst h
      dsimp only
      split
      · exact subVotingPower_nonneg val _
      · exact subVotingPower_nonneg val _
    · exact hinv p h

/-- One registry operation preserves non-negativity of every validator's
voting power (delegation amounts assumed non-negative; `SubVotingPower`
clamps at zero on the other paths, and failed operations do not mutate). -/
theorem applyOp_vp (s : SlasherState) (op : DPoSOp)
    (hop : opDelegateNonneg op = true) (hinv : vpInvariant s) :
    vpInvariant (applyOp s op) := by
  cases op with
  | delegate d v a =>
    have ha : 0 ≤ a := by simpa [opDelegateNonneg] using hop
    cases h : dposDelegate s.dpos d v a with
    | ok st =>
      have hred : applyOp s (DPoSOp.delegate d v a) = { s with dpos := st } := by
        simp [applyOp, h]
      rw [hred]
      intro p hp
      exact dposDelegate_vp s.dpos d v a ha hinv st h p hp
    | error e =>
      have hred : applyOp s (DPoSOp.delegate d v a) = s := by simp [applyOp, h]
      rw [hred]
      exact hinv
  | undelegate d v a =>
    cases h : dposUndelegate s.dpos d v a with
    | ok st =>
      have hred : applyOp s (DPoSOp.undelegate d v a) = { s with dpos := st } := by
        simp [applyOp, h]
      rw [hred]
      intro p hp
      exact dposUndelegate_vp s.dpos d v a hinv st h p hp
    | error e =>
      have hred : applyOp s (DPoSOp.undelegate d v a) = s := by simp [applyOp, h]
      rw [hred]
      exact hinv
  | slash v r bn =>
    cases h : slasherSlashValidator s.dpos s.events v r bn with
    | ok st =>
      obtain ⟨st1, evs⟩ := st
      have hred : applyOp s (DPoSOp.slash v r bn) = { dpos := st1, events := evs } := by
        simp [applyOp, h]
      rw [hred]
      intro p hp
      exact slasherSlash_vp s.dpos s.events v r bn hinv st1 evs h p hp
    | error e =>
      have hred : applyOp s (DPoSOp.slash v r bn) = s := by simp [applyOp, h]
      rw [hred]
      exact hinv

/-- Claim C10: a validator's voting power never becomes negative: starting from a
registry where every voting power is non-negative, any sequence of
`Delegate`, `Undelegate` and `SlashValidator` operations (with non-negative
delegation amounts) keeps every validator's `VotingPower ≥ 0` — every
decrease goes through `SubVotingPower`, which clamps at zero. -/
theorem votingPower_never_negative (s : SlasherState) (ops : List DPoSOp)
    (hops : ∀ op ∈ ops, opDelegateNonneg op = true) (hinv : vpInvariant s) :
    vpInvariant (applyOps s ops) := by
  induction ops generalizing s with
  | nil => exact hinv
  | cons op rest ih =>
    have h1 : vpInvariant (applyOp s op) :=
      applyOp_vp s op (hops op (List.mem_cons_self _ _)) hinv
    have h2 := ih (applyOp s op) (fun o ho => hops o (List.mem_cons_of_mem _ ho)) h1
    simpa [applyOps, List.foldl_cons] using h2

/-- Witness for C10: a delegate, an undelegate and a downtime slash applied
to a one-validator registry. -/
theorem votingPower_never_negative_witness :
    vpInvariant (applyOps c10s0 c10ops) :=
  votingPower_never_negative c10s0 c10ops (by decide)
    (by unfold vpInvariant; decide)

/-- Claim C7: `SlashValidator` applies the fixed fraction of the looked-up
validator's voting power and of its self-stake as the penalty — 500, 100 and
300 basis points (5%, 1%, 3%) for double-sign, downtime and invalid-block —
computing `⌊x·bp/10000⌋` with `big.Int` Euclidean division, and appends an
event carrying the validator address, the reason, the (voting-power) slash
amount and the height. In particular `1,000,000 · 100 / 10000 = 10,000`, so
slashing a validator with voting power 1,000,000 for downtime reduces the
voting power by exactly 10,000 (the zero-clamp in `SubVotingPower` never
fires since the slash amount is at most the voting power). -/
theorem slashValidator_spec (s : DPoSState) (events : List SlashingEvent)
    (a : Nat) (v : Validator) (r : SlashingReason) (bn : Nat)
    (hv : alistLookup s.validators a = some v) (hvp : 0 ≤ v.votingPower) :
    (∃ s1, slasherSlashValidator s events a r bn =
        .ok (s1, events ++
          [SlashingEvent.mk a r ((v.votingPower * slashBP r) / 10000) bn]) ∧
      s1.delegations = s.delegations ∧
      ∃ v1, alistLookup s1.validators a = some v1 ∧
        v1.votingPower = v.votingPower - (v.votingPower * slashBP r) / 10000 ∧
        v1.selfStake = v.selfStake - (v.selfStake * slashBP r) / 10000) ∧
    slashBP SlashingReason.doubleSign = 500 ∧
    slashBP SlashingReason.downtime = 100 ∧
    slashBP SlashingReason.invalidBlock = 300 ∧
    ((1000000 : Int) * slashBP SlashingReason.downtime) / 10000 = 10000 := by
  have hbp0 : 0 ≤ slashBP r := by cases r <;> norm_num [slashBP]
  have hbple : slashBP r ≤ 10000 := by cases r <;> norm_num [slashBP]
  have hamt0 : 0 ≤ (v.votingPower * slashBP r) / 10000 :=
    Int.ediv_nonneg (mul_nonneg hvp hbp0) (by norm_num)
  have hamtle : (v.votingPower * slashBP r) / 10000 ≤ v.votingPower := by
    have h1 : v.votingPower * slashBP r ≤ v.votingPower * 10000 :=
      mul_le_mul_of_nonneg_left hbple hvp
    have h2 : (v.votingPower * slashBP r) / 10000 ≤ (v.votingPower * 10000) / 10000 :=
      Int.ediv_le_ediv (by norm_num) h1
    rwa [Int.mul_ediv_cancel _ (by norm_num)] at h2
  have hclamp : ¬ (v.votingPower - (v.votingPower * slashBP r) / 10000 < 0) := by omega
  refine ⟨?_, rfl, rfl, rfl, by decide⟩
  obtain ⟨s1, evs, hrun⟩ : ∃ s1 evs, slasherSlashValidator s events a r bn = .ok (s1, evs) := by
    unfold slasherSlashValidator
    rw [hv]
    exact ⟨_, _, rfl⟩
  have hfacts := hrun
  simp only [slasherSlashValidator, hv, Except.ok.injEq, Prod.mk.injEq] at hfacts
  obtain ⟨hs1, hevs⟩ := hfacts
  refine ⟨s1, ?_, ?_, ?_⟩
  · rw [hrun, ← hevs]
  · rw [← hs1]
  · rw [← hs1]
    dsimp only
    refine ⟨_, by rw [alistLookup_update, if_pos rfl], ?_, ?_⟩
    · by_cases hj : r = SlashingReason.doubleSign ∨ r = SlashingReason.invalidBlock
      · rw [if_pos hj]
        show (v.subVotingPower (v.votingPower * slashBP r / 10000)).votingPower = _
        unfold Validator.subVotingPower
        dsimp only
        rw [if_neg hclamp]
      · rw [if_neg hj]
        show (v.subVotingPower (v.votingPower * slashBP r / 10000)).votingPower = _
        unfold Validator.subVotingPower
        dsimp only
        rw [if_neg hclamp]
    · by_cases hj : r = SlashingReason.doubleSign ∨ r = SlashingReason.invalidBlock
      · rw [if_pos hj]
        rfl
      · rw [if_neg hj]
        rfl

/-- Witness for C7: the downtime slash on a validator with voting power and
self-stake 1,000,000 reduces both by exactly 10,000 and records the event. -/
theorem slashValidator_spec_witness :
    ∃ s1, slasherSlashValidator c7dpos [] 1 SlashingReason.downtime 4 =
        .ok (s1, [SlashingEvent.mk 1 SlashingReason.downtime
          (((1000000 : Int) * slashBP SlashingReason.downtime) / 10000) 4]) ∧
      s1.delegations = c7dpos.delegations ∧
      ∃ v1, alistLookup s1.validators 1 = some v1 ∧
        v1.votingPower = 1000000 - ((1000000 : Int) * slashBP SlashingReason.downtime) / 10000 ∧
        v1.selfStake = 1000000 - ((1000000 : Int) * slashBP SlashingReason.downtime) / 10000 :=
  (slashValidator_spec c7dpos [] 1 c7val SlashingReason.downtime 4 rfl (by decide)).1

/-- The queue scan of `ProcessUnbonding` equals the obvious comprehension:
completed entries are exactly those with `completionBlock ≤ currentBlock`,
in queue order; the new queue keeps, per delegator, exactly the entries with
`completionBlock > currentBlock`, dropping delegators left with none. -/
theorem processQueue_spec (q : List (Nat × List UnbondingDelegation)) (currentBlock : Nat) :
    (processQueue q currentBlock).1 =
      (q.map (fun p => p.2.filter (fun u => decide (u.completionBlock ≤ currentBlock)))).flatten ∧
    (processQueue q currentBlock).2 =
      (q.map (fun p => (p.1, p.2.filter (fun u => decide (currentBlock < u.completionBlock))))).filter
        (fun p => ! p.2.isEmpty) := by
  have hcompl : ∀ u : UnbondingDelegation,
      decide (currentBlock ≥ u.completionBlock) = decide (u.completionBlock ≤ currentBlock) :=
    fun u => rfl
  have hrem : ∀ u : UnbondingDelegation,
      (! decide (currentBlock ≥ u.completionBlock)) = decide (currentBlock < u.completionBlock) := by
    intro u
    by_cases hc : u.completionBlock ≤ currentBlock
    · have hc2 : ¬ currentBlock < u.completionBlock := Nat.not_lt.mpr hc
      simp [ge_iff_le, hc, hc2]
    · have hc2 : currentBlock < u.completionBlock := Nat.lt_of_not_le hc
      simp [ge_iff_le, hc, hc2]
  induction q with
  | nil => exact ⟨rfl, rfl⟩
  | cons p t ih =>
    obtain ⟨dk, us⟩ := p
    constructor
    · simp only [processQueue, List.map_cons, List.flatten_cons, ih.1]
    · simp only [processQueue, List.map_cons, List.filter_cons, ih.2]
      have husrem : us.filter (fun u => ! decide (currentBlock ≥ u.completionBlock)) =
          us.filter (fun u => decide (currentBlock < u.completionBlock)) :=
        List.filter_congr (fun u _ => hrem u)
      rw [husrem]
      by_cases hempty : us.filter (fun u => decide (currentBlock < u.completionBlock)) = []
      · simp [hempty]
      · simp [hempty]

/-- Claim C9: a successful `Unstake` at height `H` appends to the delegator's
queue an `UnbondingDelegation` with `CompletionBlock = H + UnbondingPeriod`
(the queue of every other delegator unchanged); `ProcessUnbonding(cur)`
returns exactly the queued entries with `CompletionBlock ≤ cur` (in queue
order, so each entry is returned at most once) and removes them, while
every entry with `CompletionBlock > cur` stays queued under its delegator. -/
theorem unbonding_queue_spec :
    (∀ (dpos : DPoSState) (sm : StakingManager) (d v : Nat) (amt : Int) (height : Nat)
        (dpos1 : DPoSState) (sm1 : StakingManager),
        height + sm.unbondingPeriod < 2 ^ 64 →
        smUnstake dpos sm d v amt height = .ok (dpos1, sm1) →
        alistLookup sm1.unbondingQueue d =
          some (((alistLookup sm.unbondingQueue d).getD []) ++
            [UnbondingDelegation.mk d v amt (height + sm.unbondingPeriod)]) ∧
        ∀ d2, d2 ≠ d →
          alistLookup sm1.unbondingQueue d2 = alistLookup sm.unbondingQueue d2) ∧
    (∀ (sm : StakingManager) (cur : Nat),
        (smProcessUnbonding sm cur).1 =
          (sm.unbondingQueue.map (fun p =>
            p.2.filter (fun u => decide (u.completionBlock ≤ cur)))).flatten ∧
        (smProcessUnbonding sm cur).2.unbondingQueue =
          (sm.unbondingQueue.map (fun p =>
            (p.1, p.2.filter (fun u => decide (cur < u.completionBlock))))).filter
            (fun p => ! p.2.isEmpty)) := by
  constructor
  · intro dpos sm d v amt height dpos1 sm1 hwrap hok
    cases hu : dposUndelegate dpos d v amt with
    | error e => simp [smUnstake, hu] at hok
    | ok dpos2 =>
      simp only [smUnstake, hu, Except.ok.injEq, Prod.mk.injEq] at hok
      obtain ⟨hd1, hsm1⟩ := hok
      constructor
      · rw [← hsm1]
        dsimp only
        rw [alistLookup_update, if_pos rfl, u64_of_lt hwrap]
      · intro d2 hne
        rw [← hsm1]
        dsimp only
        rw [alistLookup_update, if_neg (fun he => hne he.symm)]
  · intro sm cur
    exact processQueue_spec sm.unbondingQueue cur

/-- Witness for C9: unstaking 30 from validator 5 at height 10 with the
default unbonding period 201,600 enqueues completion height 201,610; the
other conjuncts are instantiated in the processing witnesses below. -/
theorem unbonding_queue_spec_witness :
    (alistLookup c9sm1.unbondingQueue 1 =
      some [UnbondingDelegation.mk 1 5 30 (10 + newStakingManager.unbondingPeriod)] ∧
     ∀ d2, d2 ≠ 1 →
       alistLookup c9sm1.unbondingQueue d2 =
         alistLookup newStakingManager.unbondingQueue d2) ∧
    ((smProcessUnbonding c9sm1 201610).1 =
      [UnbondingDelegation.mk 1 5 30 201610] ∧
     (smProcessUnbonding c9sm1 201610).2.unbondingQueue = []) :=
  ⟨unbonding_queue_spec.1 c9dpos newStakingManager 1 5 30 10 c9dpos1 c9sm1
      (by decide) rfl,
   unbonding_queue_spec.2 c9sm1 201610⟩

/-- Claim C3 (amended): for a transfer transaction with `tx.To ≠ tx.From` (the
self-transfer case fails the original claim, see the counterexample), on a
well-formed store holding the sender: execution succeeds exactly when the
sender's nonce equals `tx.Nonce` and the balance covers
`value + gasLimit·gasPrice`; on success the sender's balance decreases by
exactly that cost and the nonce increases by 1, the recipient (the stored
account, or a fresh zero-balance account when absent) gains exactly
`tx.Value` — gas is never credited to the recipient — and every other
account is untouched; on a nonce mismatch or insufficient balance the
respective error is returned with no state mutated (the store is only
written on the success path). -/
theorem executeTransfer_spec (s : StateDB) (tx : Transaction) (sender : Account)
    (htype : tx.type = TxType.transfer)
    (hwf : accountsWF s)
    (hsender : getAccount s tx.fromAddr = .ok sender)
    (hne : tx.toAddr ≠ tx.fromAddr)
    (hgas : tx.gasLimit < 2 ^ 63)
    (hnw : sender.nonce + 1 < 2 ^ 64) :
    (sender.nonce = tx.nonce →
      tx.value + (tx.gasLimit : Int) * tx.gasPrice ≤ sender.balance →
      ∃ s1, executeTransaction s tx = .ok s1 ∧
        getAccount s1 tx.fromAddr = .ok { sender with
          balance := sender.balance - (tx.value + (tx.gasLimit : Int) * tx.gasPrice),
          nonce := sender.nonce + 1 } ∧
        getAccount s1 tx.toAddr = .ok
          ((match getAccount s tx.toAddr with
            | .error _ => newAccount tx.toAddr
            | .ok r => r).addBalance tx.value) ∧
        ∀ c, c ≠ tx.fromAddr → c ≠ tx.toAddr → getAccount s1 c = getAccount s c) ∧
    (newAccount tx.toAddr).balance = 0 ∧
    (sender.nonce ≠ tx.nonce → executeTransaction s tx = .error "invalid nonce") ∧
    (sender.nonce = tx.nonce →
      sender.balance < tx.value + (tx.gasLimit : Int) * tx.gasPrice →
      executeTransaction s tx = .error "insufficient balance") := by
  have hcost : tx.getCost = tx.value + (tx.gasLimit : Int) * tx.gasPrice := by
    unfold Transaction.getCost
    rw [toInt64_of_lt hgas]
  have hdisp : executeTransaction s tx = executeTransfer s tx := by
    unfold executeTransaction
    rw [htype]
  have hlook : alistLookup s.accounts tx.fromAddr = some sender := by
    unfold getAccount at hsender
    cases hl : alistLookup s.accounts tx.fromAddr with
    | none => simp [hl] at hsender
    | some aacc =>
      rw [hl] at hsender
      simp only [Except.ok.injEq] at hsender
      rw [hsender]
  have hsaddr : sender.address = tx.fromAddr := hwf _ (alistLookup_mem _ _ _ hlook)
  have hraddr : ((match getAccount s tx.toAddr with
      | .error _ => newAccount tx.toAddr
      | .ok r => r).addBalance tx.value).address = tx.toAddr := by
    cases hr : alistLookup s.accounts tx.toAddr with
    | none => simp [getAccount, hr, newAccount, Account.addBalance]
    | some racc =>
      have hra : racc.address = tx.toAddr := hwf _ (alistLookup_mem _ _ _ hr)
      simp [getAccount, hr, Account.addBalance, hra]
  refine ⟨?_, rfl, ?_, ?_⟩
  · intro hnonce hble
    have hnlt : ¬ sender.balance < tx.getCost := by
      rw [hcost]
      exact not_lt.mpr hble
    have hsub : sender.subBalance tx.getCost =
        { sender with balance := sender.balance - tx.getCost } := by
      unfold Account.subBalance
      rw [if_neg hnlt]
    rw [hdisp]
    unfold executeTransfer
    rw [hsender]
    dsimp only
    rw [if_neg (not_not_intro hnonce), if_neg hnlt, hsub]
    dsimp only
    rw [u64_of_lt hnw, hcost]
    refine ⟨_, rfl, ?_, ?_, ?_⟩
    · rw [getAccount_setAccount, if_neg (fun he => hne (hraddr.symm.trans he)),
        getAccount_setAccount, if_pos hsaddr]
    · rw [getAccount_setAccount, if_pos hraddr]
    · intro c hcf hct
      rw [getAccount_setAccount, if_neg (fun he => hct (hraddr.symm.trans he).symm),
        getAccount_setAccount, if_neg (fun he => hcf (hsaddr.symm.trans he).symm)]
  · intro hnne
    rw [hdisp]
    unfold executeTransfer
    rw [hsender]
    dsimp only
    rw [if_pos hnne]
  · intro hnonce hblt
    rw [hdisp]
    unfold executeTransfer
    rw [hsender]
    dsimp only
    rw [if_neg (not_not_intro hnonce), hcost, if_pos hblt]

/-- Witness for C3: transferring 10 with cost 11 from account 1 (balance
100, nonce 0) to the absent account 2. -/
theorem executeTransfer_spec_witness :
    ∃ s1, executeTransaction c3s0 c3tx = .ok s1 ∧
      getAccount s1 1 = .ok (acct 1 89 1) ∧
      getAccount s1 2 = .ok (acct 2 10 0) ∧
      ∀ c, c ≠ 1 → c ≠ 2 → getAccount s1 c = getAccount c3s0 c :=
  (executeTransfer_spec c3s0 c3tx (acct 1 100 0) rfl
      (by unfold accountsWF; decide) rfl (by decide) (by decide) (by decide)).1
    rfl (by decide)

theorem getAccount_ok (s : StateDB) (addr : Nat) (a : Account)
    (h : getAccount s addr = .ok a) : alistLookup s.accounts addr = some a := by
  unfold getAccount at h
  cases hl : alistLookup s.accounts addr with
  | none =>
    rw [hl] at h
    simp at h
  | some x =>
    rw [hl] at h
    simp only [Except.ok.injEq] at h
    rw [h]

/-- Claim C8 (amended): `executeCreateValidator` checks only that the sender's
balance covers the self-stake — the network minimum-stake requirement is not
enforced on the executor path (see the counterexample); on success it stores
a `Validator` keyed by the sender address with initial voting power equal to
the self-stake, debits the sender's balance by the self-stake, credits the
sender's staked amount by it and bumps the nonce; when the balance is
insufficient it fails with no state mutated (the store is only written on
the success path). -/
theorem executeCreateValidator_spec (s : StateDB) (tx : Transaction)
    (pk comm : Nat) (selfStake : Int) (acc : Account)
    (htype : tx.type = TxType.createValidator)
    (hdata : tx.data = TxData.createValidatorData pk comm selfStake)
    (hwf : accountsWF s)
    (hacc : getAccount s tx.fromAddr = .ok acc)
    (hnw : acc.nonce + 1 < 2 ^ 64) :
    (selfStake ≤ acc.balance →
      ∃ s1, executeTransaction s tx = .ok s1 ∧
        getValidatorS s1 tx.fromAddr = .ok (newValidator tx.fromAddr pk selfStake comm) ∧
        (newValidator tx.fromAddr pk selfStake comm).votingPower = selfStake ∧
        getAccount s1 tx.fromAddr = .ok { acc with
          balance := acc.balance - selfStake,
          staked := acc.staked + selfStake,
          nonce := acc.nonce + 1 } ∧
        ∀ c, c ≠ tx.fromAddr → getAccount s1 c = getAccount s c) ∧
    (acc.balance < selfStake →
      executeTransaction s tx = .error "insufficient balance for self-stake") := by
  have hdisp : executeTransaction s tx = executeCreateValidator s tx := by
    unfold executeTransaction
    rw [htype]
  have hsaddr : acc.address = tx.fromAddr :=
    hwf _ (alistLookup_mem _ _ _ (getAccount_ok s tx.fromAddr acc hacc))
  constructor
  · intro hble
    have hnlt : ¬ acc.balance < selfStake := not_lt.mpr hble
    have hsub : acc.subBalance selfStake =
        { acc with balance := acc.balance - selfStake } := by
      unfold Account.subBalance
      rw [if_neg hnlt]
    rw [hdisp]
    unfold executeCreateValidator
    rw [hdata]
    simp only [decodeCreateValidatorData]
    rw [hacc]
    dsimp only
    rw [if_neg hnlt, hsub]
    simp only [Account.addStake]
    rw [u64_of_lt hnw]
    refine ⟨_, rfl, ?_, rfl, ?_, ?_⟩
    · rw [getValidatorS_setValidatorS,
        if_pos (show (newValidator tx.fromAddr pk selfStake comm).address = tx.fromAddr from rfl)]
    · rw [getAccount_setValidatorS, getAccount_setAccount, if_pos hsaddr]
    · intro c hcf
      rw [getAccount_setValidatorS, getAccount_setAccount,
        if_neg (fun he => hcf (hsaddr.symm.trans he).symm)]
  · intro hblt
    rw [hdisp]
    unfold executeCreateValidator
    rw [hdata]
    simp only [decodeCreateValidatorData]
    rw [hacc]
    dsimp only
    rw [if_pos hblt]

/-- Witness for C8: creating a validator with self-stake 50 from account 1
holding 100. -/
theorem executeCreateValidator_spec_witness :
    ∃ s1, executeTransaction c3s0 c8tx = .ok s1 ∧
      getValidatorS s1 1 = .ok (newValidator 1 9 50 100) ∧
      (newValidator 1 9 50 100).votingPower = 50 ∧
      getAccount s1 1 = .ok { address := 1, balance := 50, nonce := 1, staked := 50, locked := 0 } ∧
      ∀ c, c ≠ 1 → getAccount s1 c = getAccount c3s0 c :=
  (executeCreateValidator_spec c3s0 c8tx 9 100 50 (acct 1 100 0) rfl rfl
      (by unfold accountsWF; decide) rfl (by decide)).1 (by decide)

end Apex

